import Mathlib

/-!
Verification of the slide-to-podcast audio pipeline.

Shallow embedding of the core pipeline of the repository:
* `parseScriptToSegments` — the Script Segmenter
  (ConfigurationModal.tsx, `parseScriptToSegments`, lines 838-904);
* `mergeSegments` — the Segment Merger (first phase of `generateSequencedSpeech`);
* `retryLoop` / `generateSingleSpeakerAudio` — the Synthesis Client retry loop;
* `generateSequencedSpeech` — the Sequencer;
* `pcmEncode` / `pcmDecode` — the PCM codec (float to 16-bit conversion in
  `generateSequencedSpeech` and `decodeAudioData`);
* `updateSync` — the Playback Synchronizer (`updateSync` in ConfigurationModal.tsx).

Conventions of the embedding:
* JavaScript numbers that hold times, durations and samples are modelled as `ℚ`;
  array indices and counters as `ℕ`.
* JavaScript strings are `String`; the character-level helpers (`jsTrim`,
  `jsSplitSlide`, ...) mirror the regex operations of the source on `List Char`.
* The `id` field of a segment (a `Math.random()` token, identity only) is omitted.
* Remote calls are modelled by oracles: the speech provider is a function from the
  request index to its response; the Sequencer takes a synthesis oracle from
  (text, voiceName) to a duration or an error.  Call counters are returned so the
  theorems can speak about the number of requests issued.
-/

/-- The fixed two-valued speaker enumeration (`'Host' | 'Expert'` in the source). -/
inductive Speaker where
  | Host
  | Expert
deriving DecidableEq, Repr, Inhabited

/-- One sentence-level unit of attributed, timed speech
(`interface ScriptSegment` in ConfigurationModal.tsx; the opaque `id` is omitted). -/
structure ScriptSegment where
  slideIndex : Nat
  speaker : Speaker
  text : String
  startTime : ℚ
  endTime : ℚ
deriving DecidableEq, Repr, Inhabited

/-! ### JavaScript string primitives -/

/-- Whitespace class used by JavaScript `String.prototype.trim` and the regex
class `\s` (restricted to the characters that can actually occur in scripts:
ASCII whitespace, NBSP, ideographic space, BOM). -/
def jsWhitespace (c : Char) : Bool :=
  c = ' ' || c = '\t' || c = '\n' || c = '\r' ||
  c = (Char.ofNat 11) || c = (Char.ofNat 12) ||
  c = (Char.ofNat 160) || c = (Char.ofNat 0x3000) || c = (Char.ofNat 0xfeff)

/-- JavaScript `trim()` on a character list: drop whitespace from both ends. -/
def jsTrim (cs : List Char) : List Char :=
  ((cs.dropWhile jsWhitespace).reverse.dropWhile jsWhitespace).reverse

/-- JavaScript `trim()` on a `String`. -/
def jsTrimStr (s : String) : String :=
  String.mk (jsTrim s.data)

/-- The ASCII digit class `\d`. -/
def isAsciiDigit (c : Char) : Bool :=
  '0' ≤ c && c ≤ '9'

/-- Case-insensitive literal prefix match (regex `i` flag): if `pat` is a prefix of
`cs` up to `Char.toLower`, return the rest of `cs`. -/
def matchNameCI : List Char → List Char → Option (List Char)
  | [], cs => some cs
  | _ :: _, [] => none
  | p :: ps, c :: cs => if c.toLower = p.toLower then matchNameCI ps cs else none

/-! ### The slide-marker split

`fullText.split(/\[(?:\*\*)?SLIDE\s+(\d+)(?:\*\*)?\]/i)` in the source.  JavaScript
`split` with a capture group interleaves the captured digit strings with the text
pieces.  A marker match always starts with `[` and contains no further `[`, so
matches never overlap and a left-to-right scan is faithful. -/

/-- Consume one or more characters satisfying `p` (regex `+`), returning the taken
run and the rest; fails on zero characters. -/
def takeWhile1 (p : Char → Bool) : List Char → Option (List Char × List Char)
  | [] => none
  | c :: cs =>
    if p c then some (c :: cs.takeWhile p, cs.dropWhile p) else none

/-- Consume an optional literal `**` (regex `(?:\*\*)?` before a letter: taking the
stars when present is exact, because `*` can never start the following literal). -/
def optStars : List Char → List Char
  | '*' :: '*' :: r => r
  | cs => cs

/-- Match `(?:\*\*)?\]` with the backtracking of the regex engine. -/
def closeBracket : List Char → Option (List Char)
  | '*' :: '*' :: ']' :: r => some r
  | ']' :: r => some r
  | _ => none

/-- Match the slide-marker regex `\[(?:\*\*)?SLIDE\s+(\d+)(?:\*\*)?\]` (flag `i`)
at the head of the list; return the captured digits and the rest. -/
def matchMarker : List Char → Option (List Char × List Char)
  | '[' :: r0 =>
    match matchNameCI "slide".data (optStars r0) with
    | none => none
    | some r1 =>
      match takeWhile1 jsWhitespace r1 with
      | none => none
      | some (_, r2) =>
        match takeWhile1 isAsciiDigit r2 with
        | none => none
        | some (digits, r3) =>
          match closeBracket r3 with
          | none => none
          | some r4 => some (digits, r4)
  | _ => none

/-- Worker for the marker split.  `acc` is the current text piece (reversed);
`fuel` only bounds the recursion: every step consumes at least one character, so
`fuel = length + 1` always reaches the end of the input and the fuel-exhausted
branch (which emits the unsplit remainder) is never taken at that fuel. -/
def splitSlideAux : Nat → List Char → List Char → List (List Char)
  | 0, acc, cs => [acc.reverse ++ cs]
  | _ + 1, acc, [] => [acc.reverse]
  | fuel + 1, acc, c :: cs =>
    match matchMarker (c :: cs) with
    | some (digits, rest) => acc.reverse :: digits :: splitSlideAux fuel [] rest
    | none => splitSlideAux fuel (c :: acc) cs

/-- JavaScript `fullText.split(/\[(?:\*\*)?SLIDE\s+(\d+)(?:\*\*)?\]/i)`:
the resulting pieces alternate text blocks and captured page-number strings. -/
def jsSplitSlide (s : String) : List (List Char) :=
  splitSlideAux (s.data.length + 1) [] s.data

/-- The loop's `/^\d+$/.test(block)` test recognising a captured page number. -/
def isDigitsBlock (cs : List Char) : Bool :=
  !cs.isEmpty && cs.all isAsciiDigit

/-- `parseInt(block, 10)` on an all-digit block. -/
def digitsToNat (cs : List Char) : Nat :=
  cs.foldl (fun n c => n * 10 + (c.toNat - '0'.toNat)) 0

/-! ### Speaker-label matching

`^(?:\*\*)?(?:Host|<name>)(?:\*\*)?[:：]` (flag `i`) and the analogous Expert
regex; `test` and `replace(regex, '')` are both modelled by `labelTest`, which
returns the rest of the line after the matched prefix. -/

/-- A colon in the label regex character class `[:：]`. -/
def colonChar (c : Char) : Bool :=
  c = ':' || c = '：'

/-- Match a single colon from `[:：]`. -/
def matchColon : List Char → Option (List Char)
  | c :: r => if colonChar c then some r else none
  | [] => none

/-- Match `(?:\*\*)?[:：]` after the role word, with regex backtracking over the
optional stars. -/
def afterRoleWord (cs : List Char) : Option (List Char) :=
  match cs with
  | '*' :: '*' :: r => (matchColon r).orElse (fun _ => matchColon cs)
  | _ => matchColon cs

/-- Match `(?:KEYWORD|NAME)(?:\*\*)?[:：]` case-insensitively, with the regex
alternation order (keyword first, then the caller-supplied display name). -/
def roleCore (keyword name cs : List Char) : Option (List Char) :=
  ((matchNameCI keyword cs).bind afterRoleWord).orElse
    (fun _ => (matchNameCI name cs).bind afterRoleWord)

/-- Match the whole label regex `^(?:\*\*)?(?:KEYWORD|NAME)(?:\*\*)?[:：]` (flag
`i`) at the head of the (already trimmed) line; returns the rest of the line,
which is what `line.replace(regex, '')` leaves. -/
def labelTest (keyword name cs : List Char) : Option (List Char) :=
  match cs with
  | '*' :: '*' :: r => (roleCore keyword name r).orElse (fun _ => roleCore keyword name cs)
  | _ => roleCore keyword name cs

/-! ### Sentence split

`content.split(/(?<=[。！？\.\!\?])\s+/)`: split at every maximal whitespace run
that is preceded by a sentence terminator. -/

/-- Sentence-final punctuation class `[。！？\.\!\?]`. -/
def sentencePunct (c : Char) : Bool :=
  c = '。' || c = '！' || c = '？' || c = '.' || c = '!' || c = '?'

/-- Worker for the sentence split.  In skip mode (first argument `true`) the
current whitespace run of a match is being consumed; `acc` holds the current
piece reversed.  Whitespace following a consumed run cannot open a new match
because its lookbehind character is whitespace, so a single flag is faithful. -/
def sentSplitAux : Bool → List Char → List Char → List (List Char)
  | _, acc, [] => [acc.reverse]
  | true, acc, c :: cs =>
    if jsWhitespace c then sentSplitAux true acc cs
    else sentSplitAux false (c :: acc) cs
  | false, acc, c :: cs =>
    if (match acc with | p :: _ => sentencePunct p | [] => false) && jsWhitespace c then
      acc.reverse :: sentSplitAux true [] cs
    else sentSplitAux false (c :: acc) cs

/-- JavaScript `content.split(/(?<=[。！？\.\!\?])\s+/)`. -/
def jsSentenceSplit (cs : List Char) : List (List Char) :=
  sentSplitAux false [] cs

/-! ### The Segmenter loop -/

/-- Mutable state of the parsing loop: `currentSlideIndex`, `currentSpeaker`,
`runningTime` and the output array. -/
structure PState where
  slide : Nat
  speaker : Option Speaker
  time : ℚ
  segs : List ScriptSegment
deriving Repr

/-- Push one clean sentence as a segment: `duration = max(1.5, length / 15)`
(`CHARS_PER_SEC = 15`), times accumulate from `runningTime`.  Empty sentences
(after trim) are dropped. -/
def pushSentence (spk : Speaker) (st : PState) (sentence : List Char) : PState :=
  let clean := jsTrim sentence
  if clean.isEmpty then st
  else
    let d := max ((3 : ℚ) / 2) ((clean.length : ℚ) / 15)
    { st with
      time := st.time + d
      segs := st.segs ++ [{ slideIndex := st.slide, speaker := spk, text := String.mk clean,
                            startTime := st.time, endTime := st.time + d }] }

/-- Process one line of a slide block: trim it, switch the current speaker if it
carries a Host/Expert label (stripping the label), then split the content into
sentences and push them — but only once a speaker has been seen and the content
is non-empty. -/
def processLine (hostName expertName : List Char) (st : PState) (line : List Char) : PState :=
  let trimmed := jsTrim line
  if trimmed.isEmpty then st
  else
    let next :=
      match labelTest "Host".data hostName trimmed with
      | some rest => (some Speaker.Host, jsTrim rest)
      | none =>
        match labelTest "Expert".data expertName trimmed with
        | some rest => (some Speaker.Expert, jsTrim rest)
        | none => (st.speaker, trimmed)
    let st' := { st with speaker := next.1 }
    match next.1 with
    | none => st'
    | some spk =>
      if next.2.isEmpty then st'
      else (jsSentenceSplit next.2).foldl (pushSentence spk) st'

/-- Process one block of the slide split: a captured page number updates
`currentSlideIndex = Math.max(0, pageNum - 1)` (truncated subtraction on `ℕ`);
any other block is processed line by line. -/
def processBlock (hostName expertName : List Char) (st : PState) (block : List Char) : PState :=
  if isDigitsBlock block then
    { st with slide := digitsToNat block - 1 }
  else
    (block.splitOn '\n').foldl (processLine hostName expertName) st

/-- The Script Segmenter `parseScriptToSegments(fullText, hostName, expertName)`
of ConfigurationModal.tsx. -/
def parseScriptToSegments (fullText hostName expertName : String) : List ScriptSegment :=
  ((jsSplitSlide fullText).foldl (processBlock hostName.data expertName.data)
    { slide := 0, speaker := none, time := 0, segs := [] }).segs

/-! ### The Segment Merger

Phase 1 of `generateSequencedSpeech` (part_000, lines 240-255): consecutive
segments with the same speaker and the same slide index are collapsed into one
running segment whose text is the space-joined concatenation; the running
segment keeps the other fields (id, estimated times) of the first of its run. -/

/-- Inner loop of the merger: `current` is the running segment, the list is the
remaining input. -/
def mergeLoop (current : ScriptSegment) : List ScriptSegment → List ScriptSegment
  | [] => [current]
  | next :: rest =>
    if next.speaker = current.speaker ∧ next.slideIndex = current.slideIndex then
      mergeLoop { current with text := current.text ++ " " ++ next.text } rest
    else
      current :: mergeLoop next rest

/-- The Segment Merger. -/
def mergeSegments : List ScriptSegment → List ScriptSegment
  | [] => []
  | first :: rest => mergeLoop first rest

/-! ### The Synthesis Client (`generateSingleSpeakerAudio`, part_000 lines 109-177)

The remote provider is an oracle from the request index (0-based) to a response.
A response either carries an audio payload (modelled by its decoded duration), or
carries a text part instead, or carries neither, or the request itself throws a
JavaScript error.  The two no-payload cases are turned into thrown `Error`s
inside the `try` block and then classified by the same `catch` as provider
errors; a plain `new Error(...)` stringifies to `"\x7b\x7d"` and carries no
`status`, so those two cases are never classified as transient. -/

/-- The parts of a JavaScript error value that the `catch` block of
`generateSingleSpeakerAudio` inspects: `error.status`, `error.error.code`,
`JSON.stringify(error)` and (for reporting only) `error.message`. -/
structure JsError where
  status : Option Nat
  errCode : Option Nat
  jsonStr : String
  message : String
deriving DecidableEq, Repr

/-- Containment of `needle` in some suffix of a character list. -/
def containsSubL (needle : List Char) : List Char → Bool
  | [] => needle.isEmpty
  | c :: cs => needle.isPrefixOf (c :: cs) || containsSubL needle cs

/-- Substring containment, modelling JavaScript `String.prototype.includes`. -/
def containsSub (needle hay : String) : Bool :=
  containsSubL needle.data hay.data

/-- The rate-limit classification of the `catch` block. -/
def isRateLimitErr (e : JsError) : Bool :=
  e.status == some 429 || e.errCode == some 429 ||
  containsSub "RESOURCE_EXHAUSTED" e.jsonStr ||
  containsSub "429" e.jsonStr ||
  containsSub "quota" e.jsonStr

/-- The server-busy classification of the `catch` block (`status === 503 || status === 500`). -/
def isServerBusyErr (e : JsError) : Bool :=
  e.status == some 503 || e.status == some 500

/-- One response of the speech provider. -/
inductive ApiResponse where
  /-- `candidates[0].content.parts[0].inlineData.data` present; `d` is the
  duration of the decoded audio buffer. -/
  | audio (d : ℚ)
  /-- No audio payload but a text part: `parts[0].text` present. -/
  | textOnly (t : String)
  /-- Neither audio nor text in the response. -/
  | noPayload
  /-- The request itself threw. -/
  | raise (e : JsError)
deriving Repr

/-- The `Error` thrown for a text-instead-of-audio response.  A fresh `Error`
has no `status` and stringifies to `"\x7b\x7d"`. -/
def textResponseError (t : String) : JsError :=
  { status := none, errCode := none, jsonStr := "\x7b\x7d",
    message := "Model returned text instead of audio: \"" ++ t.take 50 ++ "...\"" }

/-- The `Error` thrown when the response carries no audio payload at all. -/
def noAudioDataError : JsError :=
  { status := none, errCode := none, jsonStr := "\x7b\x7d",
    message := "No audio data returned from API." }

/-- `const maxRetries = 10`. -/
def maxRetries : Nat := 10

/-- The `while (true)` retry loop of `generateSingleSpeakerAudio`.  Returns the
final outcome together with the total number of provider requests issued.
`attempt` counts failures so far, exactly as the source's `attempt` variable at
the top of an iteration; a request that fails increments it before the
`(isRateLimit || isServerBusy) && attempt <= maxRetries` check.  `fuel` only
bounds the recursion: the loop retries only while `attempt + 1 ≤ maxRetries`,
so any `fuel ≥ maxRetries + 2 - attempt` never reaches the fuel-exhausted
branch. -/
def retryLoop (provider : Nat → ApiResponse) : Nat → Nat → (Except JsError ℚ) × Nat
  | 0, attempt => (Except.error noAudioDataError, attempt)
  | fuel + 1, attempt =>
    let failWith := fun (e : JsError) =>
      if (isRateLimitErr e || isServerBusyErr e) && (attempt + 1 ≤ maxRetries) then
        retryLoop provider fuel (attempt + 1)
      else
        (Except.error e, attempt + 1)
    match provider attempt with
    | ApiResponse.audio d => (Except.ok d, attempt + 1)
    | ApiResponse.textOnly t => failWith (textResponseError t)
    | ApiResponse.noPayload => failWith noAudioDataError
    | ApiResponse.raise e => failWith e

/-- `generateSingleSpeakerAudio` against a provider oracle: the retry loop
started at `attempt = 0`, returning the audio duration or the surfaced error,
together with the number of requests issued. -/
def generateSingleSpeakerAudio (provider : Nat → ApiResponse) : (Except JsError ℚ) × Nat :=
  retryLoop provider (maxRetries + 2) 0

/-! ### The Sequencer (`generateSequencedSpeech`, part_000 lines 232-325) -/

/-- Failure of the whole sequenced run. -/
inductive SeqError where
  /-- A synthesis unit failed (after its own retries); the error is rethrown. -/
  | provider (e : JsError)
  /-- `throw new Error("No audio generated.")`: the loop produced no audio. -/
  | noAudio
deriving DecidableEq, Repr

/-- Result of a successful sequenced run: the time-corrected segments and the
total duration (`currentOffset`, which is also the duration of the concatenated
buffer). -/
structure SeqResult where
  segments : List ScriptSegment
  totalDuration : ℚ
deriving DecidableEq, Repr

/-- The sequential generation loop over the merged segments.  `synth text voice`
abstracts one `generateSingleSpeakerAudio(text, voiceName)` call, returning the
real duration of the unit's audio or the error it surfaced.  The state carries
`currentOffset`, the number of synthesis calls issued (instrumentation, paired
with the error on failure), and the `finalSegments` accumulator. -/
def seqLoop (synth : String → String → Except JsError ℚ) (hostVoice expertVoice : String) :
    List ScriptSegment → ℚ → Nat → List ScriptSegment →
    Except (JsError × Nat) (List ScriptSegment × ℚ × Nat)
  | [], offset, calls, acc => Except.ok (acc, offset, calls)
  | seg :: rest, offset, calls, acc =>
    let text := jsTrimStr seg.text
    if text = "" then
      seqLoop synth hostVoice expertVoice rest offset calls acc
    else
      let voiceName := if seg.speaker = Speaker.Host then hostVoice else expertVoice
      match synth text voiceName with
      | Except.error e => Except.error (e, calls + 1)
      | Except.ok duration =>
        seqLoop synth hostVoice expertVoice rest (offset + duration) (calls + 1)
          (acc ++ [{ seg with startTime := offset, endTime := offset + duration }])

/-- `generateSequencedSpeech(rawSegments, hostVoice, expertVoice)`: merge, then
synthesize sequentially, then fail if no audio was produced.  The second
component of the pair counts the synthesis calls issued (instrumentation). -/
def generateSequencedSpeech (synth : String → String → Except JsError ℚ)
    (hostVoice expertVoice : String) (rawSegments : List ScriptSegment) :
    Except SeqError SeqResult × Nat :=
  let merged := mergeSegments rawSegments
  match seqLoop synth hostVoice expertVoice merged 0 0 [] with
  | Except.error (e, calls) => (Except.error (SeqError.provider e), calls)
  | Except.ok (acc, offset, calls) =>
    if acc.isEmpty then (Except.error SeqError.noAudio, calls)
    else (Except.ok { segments := acc, totalDuration := offset }, calls)

/-! ### The PCM codec

Encode (part_000 lines 306-312): clamp the float sample to `[-1, 1]`, scale a
negative sample by `0x8000 = 32768` and a non-negative one by `0x7FFF = 32767`,
then store into an `Int16Array`, which truncates toward zero and wraps modulo
`2^16` (ECMAScript ToInt16).  Decode (`decodeAudioData`, lines 22-39): divide
the 16-bit integer by `32768`. -/

/-- Truncation toward zero of a rational (ECMAScript number-to-integer step). -/
def truncQ (q : ℚ) : ℤ :=
  if q < 0 then ⌈q⌉ else ⌊q⌋

/-- ECMAScript ToInt16: truncate toward zero, reduce modulo `2^16`, reinterpret
as a signed 16-bit value. -/
def toInt16 (q : ℚ) : ℤ :=
  let m := truncQ q % 65536
  if 32768 ≤ m then m - 65536 else m

/-- The float-to-PCM encoding of one sample in `generateSequencedSpeech`:
`s = Math.max(-1, Math.min(1, x)); rawData[i] = s < 0 ? s * 0x8000 : s * 0x7FFF`. -/
def pcmEncode (x : ℚ) : ℤ :=
  let s := max (-1) (min 1 x)
  if s < 0 then toInt16 (s * 32768) else toInt16 (s * 32767)

/-- The PCM-to-float decoding of one sample in `decodeAudioData`:
`channelData[i] = dataInt16[i] / 32768.0`. -/
def pcmDecode (v : ℤ) : ℚ :=
  (v : ℚ) / 32768

/-! ### The Playback Synchronizer (`updateSync`, ConfigurationModal.tsx lines 1089-1109) -/

/-- JavaScript `Array.prototype.findIndex`: index of the first element
satisfying `p`, or none. -/
def jsFindIndex (p : ScriptSegment → Bool) : List ScriptSegment → Option Nat
  | [] => none
  | s :: rest => if p s then some 0 else (jsFindIndex p rest).map (· + 1)

/-- The time-to-segment lookup of `updateSync`: the first segment whose
`[startTime, endTime)` interval contains `t`; otherwise, when the list is
non-empty and `t` is at or past the last segment's `endTime`, the last segment;
otherwise no resolution (the source leaves the active indices unchanged).
Returns the resolved segment index together with its `slideIndex`. -/
def updateSync (segs : List ScriptSegment) (t : ℚ) : Option (Nat × Nat) :=
  match jsFindIndex (fun seg => decide (seg.startTime ≤ t) && decide (t < seg.endTime)) segs with
  | some i => some (i, (segs.getD i default).slideIndex)
  | none =>
    match segs.getLast? with
    | some lastSeg =>
      if lastSeg.endTime ≤ t then some (segs.length - 1, lastSeg.slideIndex) else none
    | none => none

/-! ### Contiguity predicates and claim-specific concrete inputs -/

/-- A run of segments is contiguous from `t` to `t'`: each segment starts where
its predecessor ended (the first at `t`), and the run ends at `t'`. -/
def ContigRun : ℚ → List ScriptSegment → ℚ → Prop
  | t, [], t' => t = t'
  | t, s :: l, t' => s.startTime = t ∧ ContigRun s.endTime l t'

/-- The spec's contiguity invariant for a stored sequence: contiguous from 0,
with every segment strictly positive in duration. -/
def ContigFrom : ℚ → List ScriptSegment → Prop
  | _, [] => True
  | t, s :: l => s.startTime = t ∧ s.startTime < s.endTime ∧ ContigFrom s.endTime l

/-- Projection of a segment to the fields the parsing and merging claims are
about (slide, speaker, text). -/
def segKey (s : ScriptSegment) : Nat × Speaker × String :=
  (s.slideIndex, s.speaker, s.text)

/-- One parsing step extends the state by appending segments that run
contiguously from the old time cursor to the new one, all stamped with the
current slide and with positive duration; the slide counter is untouched. -/
def StepSpec (st st' : PState) : Prop :=
  ∃ new, st'.segs = st.segs ++ new ∧ st'.slide = st.slide ∧
    ContigRun st.time new st'.time ∧
    ∀ s ∈ new, s.slideIndex = st.slide ∧ s.startTime < s.endTime

/-- The page numbers captured by the slide-marker split of a script, in order
(including any all-digit text block, exactly as the loop's `/^\d+$/` test sees
them). -/
def markerValues (fullText : String) : List Nat :=
  ((jsSplitSlide fullText).filter isDigitsBlock).map digitsToNat

/-- A provider response that the retry loop classifies as transient (a thrown
error recognised as rate-limiting or server-busy). -/
def transientResp (r : ApiResponse) : Prop :=
  ∃ e, r = ApiResponse.raise e ∧ (isRateLimitErr e || isServerBusyErr e) = true

/-- Whether a synthesis-client outcome is a failure. -/
def isErrResult (r : (Except JsError ℚ) × Nat) : Bool :=
  match r.1 with
  | Except.error _ => true
  | Except.ok _ => false

/-- An apostrophe character (U+0027), used to build concrete script texts. -/
def apostrophe : String :=
  String.singleton (Char.ofNat 39)

/-- The sentence `Let's continue.` of the spec's concrete scenario. -/
def letsContinueText : String :=
  "Let" ++ apostrophe ++ "s continue."

/-- The concrete input script of the spec's concrete scenario. -/
def scenarioText : String :=
  "[SLIDE 1]\nHost: Hello. Welcome.\nExpert: Hi there.\n[SLIDE 2]\nHost: " ++ letsContinueText

/-- A script whose slide markers go backwards (page 2 before page 1). -/
def backwardsText : String :=
  "[SLIDE 2]\nHost: A.\n[SLIDE 1]\nHost: B."

/-- A transient provider error: HTTP 429 with a quota body. -/
def rateLimit429 : JsError :=
  { status := some 429, errCode := some 429,
    jsonStr := "RESOURCE_EXHAUSTED", message := "quota exceeded" }

/-- A provider that fails with a transient error on the first `k` requests and
then returns one second of audio. -/
def transientKProvider (k : Nat) : Nat → ApiResponse :=
  fun n => if n < k then ApiResponse.raise rateLimit429 else ApiResponse.audio 1

/-- A provider whose every response carries no payload. -/
def noPayloadProvider : Nat → ApiResponse :=
  fun _ => ApiResponse.noPayload

/-- A synthesis oracle that always succeeds with a two-second unit. -/
def constSynth : String → String → Except JsError ℚ :=
  fun _ _ => Except.ok 2

/-- Two raw segments by the same speaker on the same slide (they merge into one
unit). -/
def twoRawSegments : List ScriptSegment :=
  [{ slideIndex := 0, speaker := Speaker.Host, text := "Hello.",
     startTime := 0, endTime := 3/2 },
   { slideIndex := 0, speaker := Speaker.Host, text := "World.",
     startTime := 3/2, endTime := 3 }]

/-- A raw segment list whose only segment has whitespace-only text. -/
def blankRawSegments : List ScriptSegment :=
  [{ slideIndex := 0, speaker := Speaker.Host, text := "  ",
     startTime := 0, endTime := 3/2 }]

/-- A concrete contiguous two-segment list for the Synchronizer witness. -/
def syncSegments : List ScriptSegment :=
  [{ slideIndex := 0, speaker := Speaker.Host, text := "a", startTime := 0, endTime := 2 },
   { slideIndex := 3, speaker := Speaker.Expert, text := "b", startTime := 2, endTime := 5 }]

/-- The result the Sequencer produces on `twoRawSegments` with the two-second
oracle: one merged unit stamped from 0 to 2. -/
def mergedRunResult : SeqResult :=
  { segments := [{ slideIndex := 0, speaker := Speaker.Host, text := "Hello. World.", startTime := 0, endTime := 0 + 2 }], totalDuration := 0 + 2 }

/-! ## Lemmas about the Segment Merger -/

/-- The merge loop always produces a non-empty list whose head carries the
speaker and slide index of the running segment. -/
theorem mergeLoop_head_key (rest : List ScriptSegment) : ∀ current, ∃ s l,
    mergeLoop current rest = s :: l ∧
    s.speaker = current.speaker ∧ s.slideIndex = current.slideIndex := by
  induction rest with
  | nil => intro current; exact ⟨current, [], rfl, rfl, rfl⟩
  | cons next rest ih =>
    intro current
    by_cases h : next.speaker = current.speaker ∧ next.slideIndex = current.slideIndex
    · rw [mergeLoop, if_pos h]
      exact ih { current with text := current.text ++ " " ++ next.text }
    · rw [mergeLoop, if_neg h]
      exact ⟨current, mergeLoop next rest, rfl, rfl, rfl⟩

/-- Adjacent outputs of the merge loop never share both speaker and slide. -/
theorem mergeLoop_chain (rest : List ScriptSegment) : ∀ current,
    List.Chain' (fun a b => ¬(b.speaker = a.speaker ∧ b.slideIndex = a.slideIndex))
      (mergeLoop current rest) := by
  induction rest with
  | nil => intro current; simp [mergeLoop]
  | cons next rest ih =>
    intro current
    by_cases h : next.speaker = current.speaker ∧ next.slideIndex = current.slideIndex
    · rw [mergeLoop, if_pos h]; exact ih _
    · rw [mergeLoop, if_neg h]
      rw [List.chain'_cons']
      refine ⟨?_, ih next⟩
      intro b hb
      obtain ⟨s, l, he, h1, h2⟩ := mergeLoop_head_key rest next
      rw [he] at hb
      simp only [List.head?_cons, Option.mem_def, Option.some.injEq] at hb
      subst hb
      rw [h1, h2]
      exact h

/-- On a list whose adjacent elements never share both speaker and slide, the
merge loop is the identity. -/
theorem mergeLoop_id_of_chain (rest : List ScriptSegment) : ∀ current,
    List.Chain' (fun a b => ¬(b.speaker = a.speaker ∧ b.slideIndex = a.slideIndex))
      (current :: rest) →
    mergeLoop current rest = current :: rest := by
  induction rest with
  | nil => intro current _; rfl
  | cons next rest ih =>
    intro current hc
    rw [List.chain'_cons] at hc
    rw [mergeLoop, if_neg hc.1, ih next hc.2]

/-! ## Lemmas about whitespace trimming -/

/-- A character list trims to nothing exactly when it is all whitespace. -/
theorem jsTrim_eq_nil_iff (cs : List Char) :
    jsTrim cs = [] ↔ ∀ c ∈ cs, jsWhitespace c := by
  unfold jsTrim
  rw [List.reverse_eq_nil_iff, List.dropWhile_eq_nil_iff]
  constructor
  · intro h c hc
    have hsplit := List.takeWhile_append_dropWhile (p := jsWhitespace) (l := cs)
    rw [← hsplit] at hc
    rcases List.mem_append.mp hc with h1 | h2
    · exact List.mem_takeWhile_imp h1
    · exact h _ (List.mem_reverse.mpr h2)
  · intro h c hc
    have : c ∈ cs.dropWhile jsWhitespace := List.mem_reverse.mp hc
    exact h c (List.dropWhile_sublist (p := jsWhitespace) |>.mem this)

/-- A string trims to empty exactly when all its characters are whitespace. -/
theorem jsTrimStr_eq_empty_iff (s : String) :
    jsTrimStr s = "" ↔ ∀ c ∈ s.data, jsWhitespace c := by
  rw [jsTrimStr, show ("" : String) = String.mk [] from rfl]
  rw [String.ext_iff]
  exact jsTrim_eq_nil_iff s.data

/-- Space-joining two strings that trim to empty yields a string that trims to
empty. -/
theorem jsTrimStr_join_blank (a b : String) (ha : jsTrimStr a = "") (hb : jsTrimStr b = "") :
    jsTrimStr (a ++ " " ++ b) = "" := by
  rw [jsTrimStr_eq_empty_iff] at ha hb ⊢
  intro c hc
  rw [String.data_append, String.data_append] at hc
  rcases List.mem_append.mp hc with h1 | h2
  · rcases List.mem_append.mp h1 with h3 | h4
    · exact ha c h3
    · simp only [show (" " : String).data = [' '] from rfl, List.mem_singleton] at h4
      subst h4; rfl
  · exact hb c h2

/-! ## Lemmas about contiguous runs -/

/-- Contiguous runs concatenate. -/
theorem contigRun_append : ∀ (a : List ScriptSegment) (t t' t'' : ℚ) (b : List ScriptSegment),
    ContigRun t a t' → ContigRun t' b t'' → ContigRun t (a ++ b) t'' := by
  intro a
  induction a with
  | nil =>
    intro t t' t'' b h1 h2
    cases h1
    exact h2
  | cons s l ih =>
    intro t t' t'' b h1 h2
    exact ⟨h1.1, ih _ _ _ _ h1.2 h2⟩

/-- The head of a contiguous run from `t` starts at `t`. -/
theorem contigRun_head (l : List ScriptSegment) (t t' : ℚ) (h : ContigRun t l t') :
    (l.head?.map ScriptSegment.startTime).getD t = t := by
  cases l with
  | nil => rfl
  | cons s l => exact h.1

/-- Along a contiguous run, each segment ends where the next starts. -/
theorem contigRun_chain (l : List ScriptSegment) : ∀ t t', ContigRun t l t' →
    List.Chain' (fun a b => a.endTime = b.startTime) l := by
  induction l with
  | nil => intro t t' _; exact List.chain'_nil
  | cons s l ih =>
    intro t t' h
    rw [List.chain'_cons']
    refine ⟨?_, ih _ _ h.2⟩
    intro b hb
    cases l with
    | nil => simp at hb
    | cons s2 l2 =>
      simp only [List.head?_cons, Option.mem_def, Option.some.injEq] at hb
      subst hb
      exact h.2.1.symm

/-- A contiguous run from `t` to `t'` ends at `t'`. -/
theorem contigRun_last (l : List ScriptSegment) : ∀ t t', ContigRun t l t' →
    (l.getLast?.map ScriptSegment.endTime).getD t = t' := by
  induction l with
  | nil => intro t t' h; exact h
  | cons s l ih =>
    intro t t' h
    cases l with
    | nil =>
      cases h.2
      rfl
    | cons s2 l2 =>
      have hne : (s2 :: l2) ≠ [] := by simp
      have h2 := ih _ _ h.2
      rw [List.getLast?_cons_cons]
      rw [List.getLast?_eq_getLast _ hne] at h2 ⊢
      simp only [Option.map_some', Option.getD_some] at h2 ⊢
      exact h2

/-! ## Lemmas about the Sequencer -/

/-- Characterisation of a successful sequential generation loop: it appends to
the accumulator exactly one time-stamped segment per remaining unit with
non-blank text, those stamps form a contiguous run from the entry offset to the
final offset, keys (slide, speaker, text) are preserved, and the call counter
advances once per stamped segment. -/
theorem seqLoop_ok_spec (synth : String → String → Except JsError ℚ) (hv ev : String) :
    ∀ (l : List ScriptSegment) (offset : ℚ) (calls : Nat) (acc segs : List ScriptSegment)
      (total : ℚ) (calls' : Nat),
    seqLoop synth hv ev l offset calls acc = Except.ok (segs, total, calls') →
    ∃ pushed, segs = acc ++ pushed ∧ total = offset + (total - offset) ∧
      ContigRun offset pushed total ∧
      pushed.map segKey = (l.filter (fun s => !(jsTrimStr s.text == ""))).map segKey ∧
      calls' = calls + pushed.length := by
  intro l
  induction l with
  | nil =>
    intro offset calls acc segs total calls' h
    simp only [seqLoop, Except.ok.injEq, Prod.mk.injEq] at h
    obtain ⟨h1, h2, h3⟩ := h
    subst h1; subst h2; subst h3
    exact ⟨[], by simp, by ring, rfl, rfl, by simp⟩
  | cons seg rest ih =>
    intro offset calls acc segs total calls' h
    simp only [seqLoop] at h
    by_cases ht : jsTrimStr seg.text = ""
    · rw [if_pos ht] at h
      obtain ⟨pushed, hp1, hp2, hp3, hp4, hp5⟩ := ih offset calls acc segs total calls' h
      refine ⟨pushed, hp1, hp2, hp3, ?_, hp5⟩
      rw [hp4]
      have : (fun s => !(jsTrimStr s.text == "")) seg = false := by
        simp [ht]
      rw [List.filter_cons_of_neg (by simpa using this)]
    · rw [if_neg ht] at h
      cases hsyn : synth (jsTrimStr seg.text)
          (if seg.speaker = Speaker.Host then hv else ev) with
      | error e => rw [hsyn] at h; cases h
      | ok d =>
        rw [hsyn] at h
        obtain ⟨pushed, hp1, hp2, hp3, hp4, hp5⟩ :=
          ih (offset + d) (calls + 1)
            (acc ++ [{ seg with startTime := offset, endTime := offset + d }])
            segs total calls' h
        refine ⟨{ seg with startTime := offset, endTime := offset + d } :: pushed, ?_, by ring, ?_, ?_, ?_⟩
        · rw [hp1, List.append_assoc]; rfl
        · exact ⟨rfl, hp3⟩
        · have hkey : segKey { seg with startTime := offset, endTime := offset + d } = segKey seg := rfl
          rw [List.map_cons, hkey, hp4]
          have : (fun s => !(jsTrimStr s.text == "")) seg = true := by
            simp [ht]
          rw [List.filter_cons_of_pos (by simpa using this)]
          rfl
        · rw [hp5, List.length_cons]; omega

/-- A loop over units whose texts are all blank issues no synthesis call and
leaves the state unchanged. -/
theorem seqLoop_all_blank (synth : String → String → Except JsError ℚ) (hv ev : String) :
    ∀ (l : List ScriptSegment) (offset : ℚ) (calls : Nat) (acc : List ScriptSegment),
    (∀ s ∈ l, jsTrimStr s.text = "") →
    seqLoop synth hv ev l offset calls acc = Except.ok (acc, offset, calls) := by
  intro l
  induction l with
  | nil => intro _ _ _ _; simp [seqLoop]
  | cons seg rest ih =>
    intro offset calls acc hb
    simp only [seqLoop]
    rw [if_pos (hb seg (by simp))]
    exact ih offset calls acc (fun s hs => hb s (by simp [hs]))

/-- Merging preserves all-blank texts (the inner loop). -/
theorem mergeLoop_blank : ∀ (rest : List ScriptSegment) (current : ScriptSegment),
    jsTrimStr current.text = "" → (∀ s ∈ rest, jsTrimStr s.text = "") →
    ∀ s ∈ mergeLoop current rest, jsTrimStr s.text = "" := by
  intro rest
  induction rest with
  | nil =>
    intro current hc _ s hs
    simp only [mergeLoop, List.mem_singleton] at hs
    subst hs; exact hc
  | cons next rest ih =>
    intro current hc hr s hs
    by_cases h : next.speaker = current.speaker ∧ next.slideIndex = current.slideIndex
    · rw [mergeLoop, if_pos h] at hs
      exact ih _ (jsTrimStr_join_blank _ _ hc (hr next (by simp)))
        (fun x hx => hr x (by simp [hx])) s hs
    · rw [mergeLoop, if_neg h] at hs
      rcases List.mem_cons.mp hs with h1 | h2
      · subst h1; exact hc
      · exact ih next (hr next (by simp)) (fun x hx => hr x (by simp [hx])) s h2

/-- Merging preserves all-blank texts. -/
theorem mergeSegments_blank (l : List ScriptSegment)
    (h : ∀ s ∈ l, jsTrimStr s.text = "") :
    ∀ s ∈ mergeSegments l, jsTrimStr s.text = "" := by
  cases l with
  | nil => intro s hs; cases hs
  | cons first rest =>
    exact mergeLoop_blank rest first (h first (by simp)) (fun x hx => h x (by simp [hx]))

/-! ## Lemmas about the Segmenter -/

/-- The trivial parsing step. -/
theorem stepSpec_refl (st : PState) : StepSpec st st :=
  ⟨[], by simp, rfl, rfl, by simp⟩

/-- Parsing steps compose. -/
theorem stepSpec_trans {a b c : PState} (h1 : StepSpec a b) (h2 : StepSpec b c) :
    StepSpec a c := by
  obtain ⟨n1, e1, s1, c1, p1⟩ := h1
  obtain ⟨n2, e2, s2, c2, p2⟩ := h2
  refine ⟨n1 ++ n2, by rw [e2, e1, List.append_assoc], by rw [s2, s1], ?_, ?_⟩
  · exact contigRun_append _ _ _ _ _ c1 c2
  · intro s hs
    rcases List.mem_append.mp hs with h | h
    · exact p1 s h
    · obtain ⟨k1, k2⟩ := p2 s h
      exact ⟨by rw [k1, s1], k2⟩

/-- A fold of parsing steps is a parsing step. -/
theorem foldl_stepSpec {α : Type} (f : PState → α → PState)
    (hf : ∀ st x, StepSpec st (f st x)) :
    ∀ (l : List α) (st : PState), StepSpec st (l.foldl f st) := by
  intro l
  induction l with
  | nil => intro st; exact stepSpec_refl st
  | cons x l ih => intro st; rw [List.foldl_cons]; exact stepSpec_trans (hf st x) (ih (f st x))

/-- Pushing one sentence is a parsing step. -/
theorem pushSentence_spec (spk : Speaker) (st : PState) (sen : List Char) :
    StepSpec st (pushSentence spk st sen) := by
  unfold pushSentence
  by_cases h : (jsTrim sen).isEmpty
  · rw [if_pos h]
    exact stepSpec_refl st
  · rw [if_neg h]
    refine ⟨[_], rfl, rfl, ⟨rfl, rfl⟩, ?_⟩
    intro s hs
    rw [List.mem_singleton] at hs
    subst hs
    refine ⟨rfl, ?_⟩
    show st.time < st.time + max ((3 : ℚ) / 2) _
    have hd : (0 : ℚ) < max ((3 : ℚ) / 2) (((jsTrim sen).length : ℚ) / 15) :=
      lt_max_of_lt_left (by norm_num)
    linarith

/-- Processing one line is a parsing step. -/
theorem processLine_spec (host expert : List Char) (st : PState) (line : List Char) :
    StepSpec st (processLine host expert st line) := by
  have base : ∀ spk?, StepSpec st { st with speaker := spk? } :=
    fun _ => ⟨[], by simp, rfl, rfl, by simp⟩
  have content : ∀ (spk : Speaker) (cs : List Char),
      StepSpec st (if cs.isEmpty then { st with speaker := some spk }
        else (jsSentenceSplit cs).foldl (pushSentence spk) { st with speaker := some spk }) := by
    intro spk cs
    by_cases hc : cs.isEmpty
    · rw [if_pos hc]; exact base _
    · rw [if_neg hc]
      exact stepSpec_trans (base _)
        (foldl_stepSpec _ (fun st' sen => pushSentence_spec spk st' sen) _ _)
  unfold processLine
  by_cases h : (jsTrim line).isEmpty
  · rw [if_pos h]
    exact stepSpec_refl st
  · rw [if_neg h]
    cases hhost : labelTest "Host".data host (jsTrim line) with
    | some rest =>
      simp only
      exact content Speaker.Host (jsTrim rest)
    | none =>
      cases hexp : labelTest "Expert".data expert (jsTrim line) with
      | some rest =>
        simp only
        exact content Speaker.Expert (jsTrim rest)
      | none =>
        simp only
        cases hsp : st.speaker with
        | none => exact base _
        | some spk => exact content spk (jsTrim line)

/-- Processing a non-page-number block is a parsing step. -/
theorem processBlock_spec_text (host expert : List Char) (st : PState) (block : List Char)
    (h : ¬ isDigitsBlock block) :
    StepSpec st (processBlock host expert st block) := by
  rw [processBlock, if_neg h]
  exact foldl_stepSpec _ (fun st' line => processLine_spec host expert st' line) _ st

/-- The generic preservation of a predicate along a left fold. -/
theorem foldl_preserve {α β : Type} (f : β → α → β) (P : β → Prop)
    (hf : ∀ st x, P st → P (f st x)) :
    ∀ (l : List α) (st : β), P st → P (l.foldl f st) := by
  intro l
  induction l with
  | nil => intro st h; exact h
  | cons x l ih => intro st h; rw [List.foldl_cons]; exact ih (f st x) (hf st x h)

/-- Processing any block preserves the contiguity invariant of the parse state. -/
theorem processBlock_contig (host expert : List Char) (st : PState) (block : List Char)
    (h : ContigRun 0 st.segs st.time ∧ ∀ s ∈ st.segs, s.startTime < s.endTime) :
    ContigRun 0 (processBlock host expert st block).segs (processBlock host expert st block).time ∧
    ∀ s ∈ (processBlock host expert st block).segs, s.startTime < s.endTime := by
  by_cases hd : isDigitsBlock block
  · rw [processBlock, if_pos hd]
    exact h
  · obtain ⟨new, he, _, hcr, hprop⟩ := processBlock_spec_text host expert st block hd
    rw [he]
    constructor
    · exact contigRun_append _ _ _ _ _ h.1 hcr
    · intro s hs
      rcases List.mem_append.mp hs with h1 | h2
      · exact h.2 s h1
      · exact (hprop s h2).2

/-- A list of segments whose slide indices are all equal is chained by `≤`
on those indices. -/
theorem chain_le_const {l : List ScriptSegment} {k : Nat} (h : ∀ s ∈ l, s.slideIndex = k) :
    List.Chain' (· ≤ ·) (l.map ScriptSegment.slideIndex) := by
  induction l with
  | nil => simp
  | cons s l ih =>
    rw [List.map_cons, List.chain'_cons']
    refine ⟨?_, ih (fun x hx => h x (by simp [hx]))⟩
    intro b hb
    cases l with
    | nil => simp at hb
    | cons s2 l2 =>
      simp only [List.map_cons, List.head?_cons, Option.mem_def, Option.some.injEq] at hb
      subst hb
      rw [h s (by simp), h s2 (by simp)]

/-- Monotonicity of slide indices along the block fold, provided the upcoming
captured page numbers (shifted to 0-based) continue the chain from the current
slide. -/
theorem foldBlocks_mono (host expert : List Char) :
    ∀ (blocks : List (List Char)) (st : PState),
    List.Chain' (· ≤ ·)
      (st.slide :: (blocks.filter isDigitsBlock).map (fun b => digitsToNat b - 1)) →
    List.Chain' (· ≤ ·) (st.segs.map ScriptSegment.slideIndex) →
    (∀ s ∈ st.segs, s.slideIndex ≤ st.slide) →
    List.Chain' (· ≤ ·)
      ((blocks.foldl (processBlock host expert) st).segs.map ScriptSegment.slideIndex) := by
  intro blocks
  induction blocks with
  | nil => intro st _ h2 _; exact h2
  | cons b blocks ih =>
    intro st h1 h2 h3
    rw [List.foldl_cons]
    by_cases hd : isDigitsBlock b
    · rw [show (b :: blocks).filter isDigitsBlock = b :: blocks.filter isDigitsBlock
          from by simp [List.filter_cons, hd], List.map_cons, List.chain'_cons] at h1
      have hpb : processBlock host expert st b = { st with slide := digitsToNat b - 1 } := by
        rw [processBlock, if_pos hd]
      rw [hpb]
      apply ih
      · exact h1.2
      · exact h2
      · intro s hs
        exact le_trans (h3 s hs) h1.1
    · rw [show (b :: blocks).filter isDigitsBlock = blocks.filter isDigitsBlock
          from by simp [List.filter_cons, hd]] at h1
      obtain ⟨new, he, hsl, hcr, hprop⟩ := processBlock_spec_text host expert st b hd
      apply ih
      · rw [hsl]; exact h1
      · rw [he, List.map_append, List.chain'_append]
        refine ⟨h2, chain_le_const (fun s hs => (hprop s hs).1), ?_⟩
        intro x hx y hy
        rw [List.getLast?_map] at hx
        rw [List.head?_map] at hy
        cases hlast : st.segs.getLast? with
        | none => rw [hlast] at hx; cases hx
        | some lastSeg =>
          rw [hlast] at hx
          simp only [Option.map_some', Option.mem_def, Option.some.injEq] at hx
          subst hx
          cases hhead : new.head? with
          | none => rw [hhead] at hy; cases hy
          | some firstNew =>
            rw [hhead] at hy
            simp only [Option.map_some', Option.mem_def, Option.some.injEq] at hy
            subst hy
            have hmem : lastSeg ∈ st.segs := List.mem_of_mem_getLast? hlast
            have hfm : firstNew ∈ new := List.mem_of_mem_head? hhead
            rw [(hprop firstNew hfm).1]
            exact h3 lastSeg hmem
      · intro s hs
        rw [he] at hs
        rw [hsl]
        rcases List.mem_append.mp hs with ha | hb2
        · exact h3 s ha
        · rw [(hprop s hb2).1]

/-! ## Lemmas about the Playback Synchronizer -/

/-- Along a sequence satisfying the contiguity invariant from `t0`, every
segment starts no earlier than `t0`. -/
theorem contigFrom_start_mono : ∀ (l : List ScriptSegment) (t0 : ℚ) (i : Nat) (s : ScriptSegment),
    ContigFrom t0 l → l.get? i = some s → t0 ≤ s.startTime := by
  intro l
  induction l with
  | nil => intro t0 i s _ hg; cases hg
  | cons a l ih =>
    intro t0 i s hc hg
    obtain ⟨h1, h2, h3⟩ := hc
    cases i with
    | zero =>
      rw [List.get?_cons_zero] at hg
      cases hg
      exact le_of_eq h1.symm
    | succ i =>
      rw [List.get?_cons_succ] at hg
      have := ih a.endTime i s h3 hg
      calc t0 = a.startTime := h1.symm
        _ ≤ a.endTime := le_of_lt h2
        _ ≤ s.startTime := this

/-- `findIndex` resolves exactly the segment whose half-open interval contains
`t`, on any sequence satisfying the contiguity invariant. -/
theorem jsFindIndex_hits : ∀ (l : List ScriptSegment) (t0 t : ℚ) (i : Nat) (s : ScriptSegment),
    ContigFrom t0 l → l.get? i = some s → s.startTime ≤ t → t < s.endTime →
    jsFindIndex (fun seg => decide (seg.startTime ≤ t) && decide (t < seg.endTime)) l = some i := by
  intro l
  induction l with
  | nil => intro t0 t i s _ hg; cases hg
  | cons a l ih =>
    intro t0 t i s hc hg hst hend
    obtain ⟨h1, h2, h3⟩ := hc
    cases i with
    | zero =>
      rw [List.get?_cons_zero] at hg
      cases hg
      rw [jsFindIndex, if_pos (by simp [hst, hend])]
    | succ i =>
      rw [List.get?_cons_succ] at hg
      have hfar : a.endTime ≤ s.startTime := contigFrom_start_mono l a.endTime i s h3 hg
      have hnot : ¬ (t < a.endTime) := not_lt.mpr (le_trans hfar hst)
      rw [jsFindIndex, if_neg (by simp [hnot]), ih a.endTime t i s h3 hg hst hend]
      rfl

/-- `findIndex` misses when no element satisfies the test. -/
theorem jsFindIndex_none_of (p : ScriptSegment → Bool) :
    ∀ (l : List ScriptSegment), (∀ s ∈ l, p s = false) → jsFindIndex p l = none := by
  intro l
  induction l with
  | nil => intro _; rfl
  | cons a l ih =>
    intro h
    rw [jsFindIndex, if_neg (by simp [h a (by simp)]), ih (fun s hs => h s (by simp [hs]))]
    rfl

/-- Along a sequence satisfying the contiguity invariant, every segment ends no
later than the last one. -/
theorem contigFrom_le_last_end : ∀ (l : List ScriptSegment) (t0 : ℚ) (lastSeg : ScriptSegment),
    ContigFrom t0 l → l.getLast? = some lastSeg → ∀ s ∈ l, s.endTime ≤ lastSeg.endTime := by
  intro l
  induction l with
  | nil => intro t0 lastSeg _ hg; cases hg
  | cons a l ih =>
    intro t0 lastSeg hc hg s hs
    obtain ⟨h1, h2, h3⟩ := hc
    cases l with
    | nil =>
      simp only [List.getLast?_singleton, Option.some.injEq] at hg
      subst hg
      rw [List.mem_singleton] at hs
      subst hs
      exact le_refl _
    | cons b l2 =>
      rw [List.getLast?_cons_cons] at hg
      rcases List.mem_cons.mp hs with h4 | h5
      · rw [h4]
        have hb : b.endTime ≤ lastSeg.endTime := ih a.endTime lastSeg h3 hg b (by simp)
        have hlt : a.endTime < lastSeg.endTime := by
          calc a.endTime = b.startTime := h3.1.symm
            _ < b.endTime := h3.2.1
            _ ≤ lastSeg.endTime := hb
        exact le_of_lt hlt
      · exact ih a.endTime lastSeg h3 hg s h5

/-! ## Lemmas about the Synthesis Client retry loop -/

/-- Running the retry loop against a provider that answers the next `k`
requests with transient failures and then audio: the loop succeeds having
issued exactly `k + 1` further requests, as long as the retry budget covers the
failures. -/
theorem retryLoop_trans_succeeds :
    ∀ (k fuel attempt : Nat) (provider : Nat → ApiResponse) (d : ℚ),
    attempt + k ≤ maxRetries → k < fuel →
    (∀ n, attempt ≤ n → n < attempt + k → transientResp (provider n)) →
    provider (attempt + k) = ApiResponse.audio d →
    retryLoop provider fuel attempt = (Except.ok d, attempt + k + 1) := by
  intro k
  induction k with
  | zero =>
    intro fuel attempt provider d _ hfuel _ hk
    cases fuel with
    | zero => omega
    | succ f =>
      rw [retryLoop]
      rw [show attempt + 0 = attempt from rfl] at hk
      rw [hk]
  | succ k ih =>
    intro fuel attempt provider d hbound hfuel htrans hk
    cases fuel with
    | zero => omega
    | succ f =>
      obtain ⟨e, he, hcls⟩ := htrans attempt (le_refl _) (by omega)
      rw [retryLoop, he]
      simp only
      rw [if_pos (by rw [hcls]; simp; omega)]
      have := ih f (attempt + 1) provider d (by omega) (by omega)
        (fun n h1 h2 => htrans n (by omega) (by omega))
        (by rw [show attempt + 1 + k = attempt + (k + 1) from by omega]; exact hk)
      rw [this]
      congr 1
      omega

/-- Running the retry loop against a provider whose answers are transient
failures all the way past the retry budget: the loop surfaces the failure of
the request made at attempt `maxRetries`, having issued `maxRetries + 1`
requests in total. -/
theorem retryLoop_trans_exhausts :
    ∀ (k fuel attempt : Nat) (provider : Nat → ApiResponse) (e : JsError),
    attempt + k = maxRetries → k < fuel →
    (∀ n, attempt ≤ n → n < maxRetries → transientResp (provider n)) →
    provider maxRetries = ApiResponse.raise e →
    retryLoop provider fuel attempt = (Except.error e, maxRetries + 1) := by
  intro k
  induction k with
  | zero =>
    intro fuel attempt provider e hb hfuel _ hlast
    cases fuel with
    | zero => omega
    | succ f =>
      have ha : attempt = maxRetries := by omega
      subst ha
      rw [retryLoop, hlast]
      simp only
      rw [if_neg (by simp [maxRetries])]
  | succ k ih =>
    intro fuel attempt provider e hb hfuel htrans hlast
    cases fuel with
    | zero => omega
    | succ f =>
      obtain ⟨e2, he2, hcls⟩ := htrans attempt (le_refl _) (by simp [maxRetries] at hb ⊢; omega)
      rw [retryLoop, he2]
      simp only
      rw [if_pos (by rw [hcls]; simp only [Bool.true_and, decide_eq_true_eq]; omega)]
      exact ih f (attempt + 1) provider e (by omega) (by omega)
        (fun n h1 h2 => htrans n (by omega) h2) hlast

/-! ## Lemmas about the PCM codec -/

/-- ECMAScript ToInt16 is the identity on the signed 16-bit range. -/
theorem toInt16_eq_trunc (q : ℚ) (h1 : -32768 ≤ truncQ q) (h2 : truncQ q ≤ 32767) :
    toInt16 q = truncQ q := by
  simp only [toInt16]
  split <;> omega

/-- Every segment of a sequence satisfying the contiguity invariant has
positive duration. -/
theorem contigFrom_pos : ∀ (l : List ScriptSegment) (t0 : ℚ),
    ContigFrom t0 l → ∀ s ∈ l, s.startTime < s.endTime := by
  intro l
  induction l with
  | nil => intro t0 _ s hs; cases hs
  | cons a l ih =>
    intro t0 hc s hs
    rcases List.mem_cons.mp hs with h1 | h2
    · rw [h1]; exact hc.2.1
    · exact ih a.endTime hc.2.2 s h2

/-! ## The claims -/

/-- C5: the Segment Merger is idempotent on its own output — re-merging an
already-merged sequence yields the same sequence (hence the same length and
elementwise equal speaker, slideIndex and text). -/
theorem merger_idempotent (l : List ScriptSegment) :
    mergeSegments (mergeSegments l) = mergeSegments l := by
  cases l with
  | nil => rfl
  | cons first rest =>
    show mergeSegments (mergeLoop first rest) = mergeLoop first rest
    obtain ⟨s, l', he, _, _⟩ := mergeLoop_head_key rest first
    rw [he]
    show mergeLoop s l' = s :: l'
    apply mergeLoop_id_of_chain
    have hc := mergeLoop_chain rest first
    rwa [he] at hc

/-- C4: for every input script text and every pair of role-name bindings, the
Segmenter's output satisfies the contiguity invariant: the first segment (if
any) starts at time 0, each segment's endTime equals the next segment's
startTime, and every segment's endTime is strictly greater than its
startTime. -/
theorem segmenter_contiguity (fullText hostName expertName : String) :
    ((parseScriptToSegments fullText hostName expertName).head?.map
        ScriptSegment.startTime).getD 0 = 0 ∧
    List.Chain' (fun a b => a.endTime = b.startTime)
      (parseScriptToSegments fullText hostName expertName) ∧
    ∀ s ∈ parseScriptToSegments fullText hostName expertName,
      s.startTime < s.endTime := by
  have hinv := foldl_preserve (processBlock hostName.data expertName.data)
    (fun st => ContigRun 0 st.segs st.time ∧ ∀ s ∈ st.segs, s.startTime < s.endTime)
    (fun st x h => processBlock_contig _ _ st x h)
    (jsSplitSlide fullText)
    { slide := 0, speaker := none, time := 0, segs := [] }
    ⟨rfl, by simp⟩
  obtain ⟨hcr, hpos⟩ := hinv
  exact ⟨contigRun_head _ _ _ hcr, contigRun_chain _ _ _ hcr, hpos⟩

/-- C4 witness: the contiguity invariant at the concrete scenario script. -/
theorem segmenter_contiguity_witness :
    ((parseScriptToSegments scenarioText "Host" "Expert").head?.map
        ScriptSegment.startTime).getD 0 = 0 ∧
    List.Chain' (fun a b => a.endTime = b.startTime)
      (parseScriptToSegments scenarioText "Host" "Expert") ∧
    ∀ s ∈ parseScriptToSegments scenarioText "Host" "Expert",
      s.startTime < s.endTime :=
  segmenter_contiguity scenarioText "Host" "Expert"

/-- C9 counterexample: on a script whose slide markers go backwards the
Segmenter's slide indices are not monotonically non-decreasing — the claim
fails as stated. -/
theorem segmenter_monotone_counterexample :
    ¬ List.Chain' (· ≤ ·)
      ((parseScriptToSegments backwardsText "Host" "Expert").map
        ScriptSegment.slideIndex) := by
  rw [show (parseScriptToSegments backwardsText "Host" "Expert").map
      ScriptSegment.slideIndex = [1, 0] from by decide]
  intro h
  rw [List.chain'_cons] at h
  omega

/-- C9 (amended): when the captured slide-marker page numbers occur in
non-decreasing order, the slide indices of the Segmenter's output are
monotonically non-decreasing. -/
theorem segmenter_monotone_of_sorted_markers (fullText hostName expertName : String)
    (h : List.Chain' (· ≤ ·) (markerValues fullText)) :
    List.Chain' (· ≤ ·)
      ((parseScriptToSegments fullText hostName expertName).map
        ScriptSegment.slideIndex) := by
  apply foldBlocks_mono
  · rw [List.chain'_cons']
    constructor
    · intro b _; exact Nat.zero_le b
    · unfold markerValues at h
      rw [List.chain'_map] at h ⊢
      exact List.Chain'.imp (fun a b hab => Nat.sub_le_sub_right hab 1) h
  · simp
  · simp

/-- C9 witness: monotone slide indices on the concrete scenario script, whose
markers are in order. -/
theorem segmenter_monotone_witness :
    List.Chain' (· ≤ ·)
      ((parseScriptToSegments scenarioText "Host" "Expert").map
        ScriptSegment.slideIndex) := by
  apply segmenter_monotone_of_sorted_markers
  rw [show markerValues scenarioText = [1, 2] from by decide]
  rw [List.chain'_cons]
  exact ⟨by omega, List.chain'_singleton 2⟩

/-- C6: the concrete scenario — the script with two slides and two speakers
parses into exactly the four segments (slide 0/Host/"Hello.",
slide 0/Host/"Welcome.", slide 0/Expert/"Hi there.", slide 1/Host/"Let's
continue.") in order; merging collapses the first two into one Host unit for
slide 0, yielding exactly three merged units and hence three synthesis
calls. -/
theorem scenario_segments :
    (parseScriptToSegments scenarioText "Host" "Expert").map segKey =
      [(0, Speaker.Host, "Hello."), (0, Speaker.Host, "Welcome."),
       (0, Speaker.Expert, "Hi there."), (1, Speaker.Host, letsContinueText)] ∧
    (mergeSegments (parseScriptToSegments scenarioText "Host" "Expert")).map segKey =
      [(0, Speaker.Host, "Hello. Welcome."), (0, Speaker.Expert, "Hi there."),
       (1, Speaker.Host, letsContinueText)] ∧
    (generateSequencedSpeech constSynth "voiceA" "voiceB"
      (parseScriptToSegments scenarioText "Host" "Expert")).2 = 3 :=
  ⟨by decide, by decide, by decide⟩

/-- C10: a raw segment list in which every text is blank after trimming
(including the empty list) issues no synthesis call and fails with the
"No audio generated." error. -/
theorem sequencer_blank_no_calls (synth : String → String → Except JsError ℚ)
    (hostVoice expertVoice : String) (rawSegments : List ScriptSegment)
    (h : ∀ s ∈ rawSegments, jsTrimStr s.text = "") :
    generateSequencedSpeech synth hostVoice expertVoice rawSegments =
      (Except.error SeqError.noAudio, 0) := by
  have hseq := seqLoop_all_blank synth hostVoice expertVoice (mergeSegments rawSegments) 0 0 []
    (mergeSegments_blank rawSegments h)
  unfold generateSequencedSpeech
  simp [hseq]

/-- C10 witness: the error and zero external calls at a concrete
whitespace-only segment list. -/
theorem sequencer_blank_no_calls_witness :
    generateSequencedSpeech constSynth "voiceA" "voiceB" blankRawSegments =
      (Except.error SeqError.noAudio, 0) :=
  sequencer_blank_no_calls constSynth "voiceA" "voiceB" blankRawSegments (by decide)

/-- C1 counterexample: a successful run on two raw segments by the same
speaker on the same slide returns a single corrected segment — the corrected
list has the merged granularity, not one segment per input raw segment. -/
theorem sequencer_granularity_counterexample :
    ((generateSequencedSpeech constSynth "voiceA" "voiceB" twoRawSegments).1.toOption.map
      (fun r => r.segments.length)) = some 1 ∧ twoRawSegments.length = 2 := by
  decide

/-- C1 (amended): for every successful run of generateSequencedSpeech, the
returned correctedSegments list has exactly one segment per merged unit with
non-blank text (merged granularity), in order and with slide, speaker and text
preserved; the stamped times satisfy the contiguity invariant — they start at
0, each segment's endTime equals the next segment's startTime, the final
endTime equals the total real duration — and the number of synthesis calls
equals the number of corrected segments. -/
theorem sequencer_output_merged_granularity
    (synth : String → String → Except JsError ℚ) (hostVoice expertVoice : String)
    (rawSegments : List ScriptSegment) (res : SeqResult) (calls : Nat)
    (h : generateSequencedSpeech synth hostVoice expertVoice rawSegments =
      (Except.ok res, calls)) :
    res.segments.map segKey =
      ((mergeSegments rawSegments).filter (fun s => !(jsTrimStr s.text == ""))).map segKey ∧
    (res.segments.head?.map ScriptSegment.startTime).getD 0 = 0 ∧
    List.Chain' (fun a b => a.endTime = b.startTime) res.segments ∧
    (res.segments.getLast?.map ScriptSegment.endTime).getD 0 = res.totalDuration ∧
    calls = res.segments.length := by
  simp only [generateSequencedSpeech] at h
  split at h
  next e calls2 heq =>
    simp at h
  next acc offset calls2 heq =>
    by_cases hac : acc.isEmpty
    · rw [if_pos hac] at h
      simp at h
    · rw [if_neg hac] at h
      rw [Prod.ext_iff] at h
      obtain ⟨h1, h2⟩ := h
      simp only [Except.ok.injEq] at h1
      subst h1
      simp only at h2
      subst h2
      obtain ⟨pushed, hp1, _, hp3, hp4, hp5⟩ :=
        seqLoop_ok_spec synth hostVoice expertVoice (mergeSegments rawSegments)
          0 0 [] acc offset calls2 heq
      rw [List.nil_append] at hp1
      subst hp1
      refine ⟨hp4, ?_, ?_, ?_, ?_⟩
      · exact contigRun_head _ _ _ hp3
      · exact contigRun_chain _ _ _ hp3
      · exact contigRun_last _ _ _ hp3
      · rw [hp5]; simp

/-- C1 witness: the amended property at a concrete successful run. -/
theorem sequencer_output_merged_granularity_witness :
    mergedRunResult.segments.map segKey =
      ((mergeSegments twoRawSegments).filter (fun s => !(jsTrimStr s.text == ""))).map segKey ∧
    (mergedRunResult.segments.head?.map ScriptSegment.startTime).getD 0 = 0 ∧
    List.Chain' (fun a b => a.endTime = b.startTime) mergedRunResult.segments ∧
    (mergedRunResult.segments.getLast?.map ScriptSegment.endTime).getD 0 =
      mergedRunResult.totalDuration ∧
    1 = mergedRunResult.segments.length :=
  sequencer_output_merged_granularity constSynth "voiceA" "voiceB" twoRawSegments
    mergedRunResult 1 rfl

/-- C2 counterexample: a provider that fails with a transient (rate-limit)
error on exactly its first 10 requests does not make the call fail after 10
attempts — the call succeeds, and it issues 11 requests (the loop allows one
initial attempt plus `maxRetries` retries). -/
theorem retry_policy_counterexample :
    generateSingleSpeakerAudio (transientKProvider 10) = (Except.ok 1, 11) ∧
    (∀ n, n < 10 → transientKProvider 10 n = ApiResponse.raise rateLimit429) := by
  constructor
  · rfl
  · intro n hn
    simp [transientKProvider, hn]

/-- C2 (amended): if the provider fails with a transient error exactly `k`
times with `k ≤ 10` and then succeeds, the call succeeds having issued exactly
`k + 1` requests; if the provider fails transiently on the first 10 requests
and the 11th request also fails, the call fails with that 11th error after
exactly 11 requests issued. -/
theorem retry_policy_amended :
    (∀ (provider : Nat → ApiResponse) (k : Nat) (d : ℚ),
      k ≤ maxRetries → (∀ n, n < k → transientResp (provider n)) →
      provider k = ApiResponse.audio d →
      generateSingleSpeakerAudio provider = (Except.ok d, k + 1)) ∧
    (∀ (provider : Nat → ApiResponse) (e : JsError),
      (∀ n, n < maxRetries → transientResp (provider n)) →
      provider maxRetries = ApiResponse.raise e →
      generateSingleSpeakerAudio provider = (Except.error e, maxRetries + 1)) := by
  constructor
  · intro provider k d hk htrans hek
    unfold generateSingleSpeakerAudio
    have := retryLoop_trans_succeeds k (maxRetries + 2) 0 provider d (by omega) (by omega)
      (fun n _ h2 => htrans n (by omega)) (by simpa using hek)
    simpa using this
  · intro provider e htrans hlast
    unfold generateSingleSpeakerAudio
    exact retryLoop_trans_exhausts maxRetries (maxRetries + 2) 0 provider e (by omega)
      (by omega) (fun n _ h2 => htrans n h2) hlast

/-- C2 witness: the amended retry policy at two concrete providers (3
transient failures then success; transient failures throughout). -/
theorem retry_policy_amended_witness :
    generateSingleSpeakerAudio (transientKProvider 3) = (Except.ok 1, 3 + 1) ∧
    generateSingleSpeakerAudio (transientKProvider 11) =
      (Except.error rateLimit429, maxRetries + 1) := by
  constructor
  · exact retry_policy_amended.1 (transientKProvider 3) 3 1 (by decide)
      (fun n hn => ⟨rateLimit429, by simp [transientKProvider, hn], by decide⟩)
      (by simp [transientKProvider])
  · exact retry_policy_amended.2 (transientKProvider 11) rateLimit429
      (fun n hn => ⟨rateLimit429,
        by simp only [transientKProvider]; rw [if_pos (by simp [maxRetries] at hn; omega)],
        by decide⟩)
      (by simp [transientKProvider, maxRetries])

/-- C3: when the provider's first response carries no audio payload (whether
it carries text instead of audio or nothing at all), the synthesis call fails
immediately and issues no further request — exactly one request in total. -/
theorem no_audio_fails_immediately (provider : Nat → ApiResponse)
    (h : provider 0 = ApiResponse.noPayload ∨ ∃ t, provider 0 = ApiResponse.textOnly t) :
    isErrResult (generateSingleSpeakerAudio provider) = true ∧
    (generateSingleSpeakerAudio provider).2 = 1 := by
  have key : ∀ e0 : JsError, e0.status = none → e0.errCode = none → e0.jsonStr = "\x7b\x7d" →
      (isRateLimitErr e0 || isServerBusyErr e0) = false := by
    intro e0 h1 h2 h3
    simp only [isRateLimitErr, isServerBusyErr, h1, h2, h3]
    decide
  unfold generateSingleSpeakerAudio
  rw [show maxRetries + 2 = 11 + 1 from rfl]
  rcases h with h0 | ⟨t, h0⟩
  · rw [retryLoop, h0]
    simp only
    rw [if_neg (by simp [key noAudioDataError rfl rfl rfl])]
    exact ⟨rfl, rfl⟩
  · rw [retryLoop, h0]
    simp only
    rw [if_neg (by simp [key (textResponseError t) rfl rfl rfl])]
    exact ⟨rfl, rfl⟩

/-- C3 witness: immediate failure with a single request at a provider that
always returns no payload. -/
theorem no_audio_fails_immediately_witness :
    isErrResult (generateSingleSpeakerAudio noPayloadProvider) = true ∧
    (generateSingleSpeakerAudio noPayloadProvider).2 = 1 :=
  no_audio_fails_immediately noPayloadProvider (Or.inl rfl)

/-- C7 counterexample: the in-range sample 65533/65536 is reproduced by the
encode/decode round trip only to within 3/65536, which exceeds the claimed
absolute tolerance of 1/32768 (the encode step truncates toward zero, so the
worst-case error on positive samples approaches 2/32768). -/
theorem pcm_roundtrip_counterexample :
    -1 ≤ (65533 : ℚ) / 65536 ∧ (65533 : ℚ) / 65536 ≤ 1 ∧
    (65533 : ℚ) / 65536 - pcmDecode (pcmEncode (65533 / 65536)) > 1 / 32768 := by
  refine ⟨by norm_num, by norm_num, ?_⟩
  have h : pcmEncode (65533 / 65536) = 32765 := by
    unfold pcmEncode toInt16 truncQ
    rw [min_eq_right (by norm_num), max_eq_right (by norm_num)]
    rw [if_neg (by norm_num)]
    have hf : ⌊(65533 / 65536 : ℚ) * 32767⌋ = 32765 := by
      rw [Int.floor_eq_iff]
      constructor
      · norm_num
      · norm_num
    rw [hf]
    norm_num
  rw [h]
  norm_num [pcmDecode]

/-- C7 (amended): the PCM encode step clamps each sample to `[-1, 1]`, scales
non-negative values by 32767 and negative values by 32768 and truncates into a
16-bit signed integer; the decode step divides by 32768; for every sample `x`
already in `[-1, 1]` the composition `decode (encode x)` reproduces `x` within
an absolute tolerance of 1/16384 (= 2/32768). -/
theorem pcm_roundtrip_amended (x : ℚ) (h1 : -1 ≤ x) (h2 : x ≤ 1) :
    |pcmDecode (pcmEncode x) - x| ≤ 1 / 16384 := by
  have hs : max (-1) (min 1 x) = x := by rw [min_eq_right h2, max_eq_right h1]
  unfold pcmEncode
  rw [hs]
  by_cases hx : x < 0
  · rw [if_pos hx]
    have hneg : x * 32768 < 0 := by nlinarith
    have htr : truncQ (x * 32768) = ⌈x * 32768⌉ := by
      unfold truncQ
      rw [if_pos hneg]
    have hlow : (-32768 : ℤ) ≤ ⌈x * 32768⌉ := by
      have hle : ((-32768 : ℤ) : ℚ) ≤ x * 32768 := by push_cast; nlinarith
      calc (-32768 : ℤ) = ⌈((-32768 : ℤ) : ℚ)⌉ := (Int.ceil_intCast _).symm
        _ ≤ ⌈x * 32768⌉ := Int.ceil_le_ceil hle
    have hhigh : ⌈x * 32768⌉ ≤ 32767 := by
      have hle : x * 32768 ≤ ((0 : ℤ) : ℚ) := by push_cast; nlinarith
      calc ⌈x * 32768⌉ ≤ ⌈((0 : ℤ) : ℚ)⌉ := Int.ceil_le_ceil hle
        _ = 0 := Int.ceil_intCast _
        _ ≤ 32767 := by omega
    have hw : toInt16 (x * 32768) = ⌈x * 32768⌉ := by
      rw [toInt16_eq_trunc _ (by rw [htr]; exact hlow) (by rw [htr]; exact hhigh), htr]
    rw [hw]
    unfold pcmDecode
    have c1 : x * 32768 ≤ ((⌈x * 32768⌉ : ℤ) : ℚ) := Int.le_ceil _
    have c2 : (((⌈x * 32768⌉ : ℤ)) : ℚ) < x * 32768 + 1 := Int.ceil_lt_add_one _
    rw [abs_le]
    constructor <;> linarith
  · rw [if_neg hx]
    push_neg at hx
    have hpos : 0 ≤ x * 32767 := by nlinarith
    have htr : truncQ (x * 32767) = ⌊x * 32767⌋ := by
      unfold truncQ
      rw [if_neg (not_lt.mpr hpos)]
    have hlow : (0 : ℤ) ≤ ⌊x * 32767⌋ := by
      calc (0 : ℤ) = ⌊((0 : ℤ) : ℚ)⌋ := (Int.floor_intCast _).symm
        _ ≤ ⌊x * 32767⌋ := Int.floor_le_floor (by push_cast; nlinarith)
    have hhigh : ⌊x * 32767⌋ ≤ 32767 := by
      calc ⌊x * 32767⌋ ≤ ⌊((32767 : ℤ) : ℚ)⌋ := Int.floor_le_floor (by push_cast; nlinarith)
        _ = 32767 := Int.floor_intCast _
    have hw : toInt16 (x * 32767) = ⌊x * 32767⌋ := by
      rw [toInt16_eq_trunc _ (by rw [htr]; omega) (by rw [htr]; exact hhigh), htr]
    rw [hw]
    unfold pcmDecode
    have c1 : ((⌊x * 32767⌋ : ℤ) : ℚ) ≤ x * 32767 := Int.floor_le _
    have c2 : x * 32767 - 1 < ((⌊x * 32767⌋ : ℤ) : ℚ) := Int.sub_one_lt_floor _
    rw [abs_le]
    constructor <;> linarith

/-- C7 witness: the amended round-trip bound at the concrete sample 1/2. -/
theorem pcm_roundtrip_amended_witness :
    -1 ≤ (1 : ℚ) / 2 ∧ (1 : ℚ) / 2 ≤ 1 ∧
    |pcmDecode (pcmEncode (1 / 2)) - 1 / 2| ≤ 1 / 16384 :=
  ⟨by norm_num, by norm_num, pcm_roundtrip_amended (1 / 2) (by norm_num) (by norm_num)⟩

/-- C8: on a non-empty segment list satisfying the contiguity invariant, the
Synchronizer resolves any `t` inside a segment's `[startTime, endTime)`
interval to exactly that segment's index and slide; any `t` at or past the
last segment's endTime to the last index and slide; and any `t < 0` (before
any segment) to no active segment. -/
theorem synchronizer_lookup (segs : List ScriptSegment) (t : ℚ)
    (hne : segs ≠ []) (hc : ContigFrom 0 segs) :
    (∀ i s, segs.get? i = some s → s.startTime ≤ t → t < s.endTime →
      updateSync segs t = some (i, s.slideIndex)) ∧
    (∀ lastSeg, segs.getLast? = some lastSeg → lastSeg.endTime ≤ t →
      updateSync segs t = some (segs.length - 1, lastSeg.slideIndex)) ∧
    (t < 0 → updateSync segs t = none) := by
  refine ⟨?_, ?_, ?_⟩
  · intro i s hg hst hend
    unfold updateSync
    rw [jsFindIndex_hits segs 0 t i s hc hg hst hend]
    have hgd : segs.getD i default = s := by
      rw [List.getD_eq_get?, hg]
      rfl
    show some (i, (segs.getD i default).slideIndex) = some (i, s.slideIndex)
    rw [hgd]
  · intro lastSeg hg hle
    unfold updateSync
    have hnone : jsFindIndex
        (fun seg => decide (seg.startTime ≤ t) && decide (t < seg.endTime)) segs = none :=
      jsFindIndex_none_of _ segs (fun s hs => by
        have h5 : ¬ (t < s.endTime) :=
          not_lt.mpr (le_trans (contigFrom_le_last_end segs 0 lastSeg hc hg s hs) hle)
        simp [h5])
    rw [hnone, hg]
    show (if lastSeg.endTime ≤ t then some (segs.length - 1, lastSeg.slideIndex) else none) =
      some (segs.length - 1, lastSeg.slideIndex)
    rw [if_pos hle]
  · intro ht
    unfold updateSync
    have hnone : jsFindIndex
        (fun seg => decide (seg.startTime ≤ t) && decide (t < seg.endTime)) segs = none :=
      jsFindIndex_none_of _ segs (fun s hs => by
        obtain ⟨i, hi⟩ := List.mem_iff_get?.mp hs
        have h0 : (0 : ℚ) ≤ s.startTime := contigFrom_start_mono segs 0 i s hc hi
        have h5 : ¬ (s.startTime ≤ t) := by linarith
        simp [h5])
    rw [hnone]
    cases hg : segs.getLast? with
    | none => rfl
    | some lastSeg =>
      have hmem : lastSeg ∈ segs := List.mem_of_mem_getLast? hg
      obtain ⟨i, hi⟩ := List.mem_iff_get?.mp hmem
      have h0 : (0 : ℚ) ≤ lastSeg.startTime := contigFrom_start_mono segs 0 i lastSeg hc hi
      have hlt : lastSeg.startTime < lastSeg.endTime := contigFrom_pos segs 0 hc lastSeg hmem
      show (if lastSeg.endTime ≤ t then some (segs.length - 1, lastSeg.slideIndex) else none) =
        none
      rw [if_neg (not_le.mpr (by linarith))]

/-- C8 witness: the lookup at a concrete contiguous list and a time inside the
first segment. -/
theorem synchronizer_lookup_witness : updateSync syncSegments 1 = some (0, 0) := by
  have hc : ContigFrom 0 syncSegments := by
    refine ⟨rfl, by norm_num, rfl, by norm_num, trivial⟩
  exact (synchronizer_lookup syncSegments 1 (by simp [syncSegments]) hc).1 0 _ rfl
    (by norm_num [syncSegments]) (by norm_num [syncSegments])
